import Mathlib

/-!
Verification of the cache/alias-resolution engine of
`src/First_Cheminformatics_agent/tools/pubchem_search.py` (`PubChemResolveTool`).

The Python class is shallowly embedded as follows:

* JSON field values are `JVal` (`null`, a string, or an integer — the code can
  store the integer CID returned by the remote library).
* A cached record (`ChemRecord`) has the six canonical fields; the five name
  fields are only ever `None` or a string in records this code creates, the
  `cid` field can additionally be an integer, so it is typed `JVal`.
* The store `self._cache` is an insertion-ordered association list
  (Python dicts preserve insertion order, and rebuild order matters because
  later records win alias collisions).
* The alias tables `_alias_cs` / `_alias_ci` are functions
  `String → Option String`; only `.get` is ever observed on them.
* `forward` is a pure state transformer returning the produced output
  (a returned string or a raised `ValueError`), the successor state, and the
  number of invocations of the fetch adapter `_fetch_from_pubchem`, which is
  abstracted as a parameter `f : String → Option ChemRecord` (the spec treats
  the adapter as a black box behind a single fetch contract).
* Python `str.strip()` / `str.lower()` are modelled by `pyStrip` / `pyLower`
  on the underlying character lists (ASCII-faithful).
-/

namespace PubchemResolve

/-- Python whitespace characters stripped by `str.strip()` (ASCII part). -/
def isPyWS (c : Char) : Bool :=
  c = ' ' || c = '\t' || c = '\n' || c = '\r' || c = '\x0b' || c = '\x0c'

/-- Characters dropped from the end of a list while `p` holds: models the
right-hand side of Python `str.strip()`. -/
def dropTrail (p : Char → Bool) (l : List Char) : List Char :=
  l.foldr (fun c acc => if acc = [] ∧ p c then [] else c :: acc) []

/-- Both-ends whitespace strip on character lists. -/
def stripList (l : List Char) : List Char :=
  dropTrail isPyWS (l.dropWhile isPyWS)

/-- Model of Python `str.strip()`. -/
def pyStrip (s : String) : String := ⟨stripList s.data⟩

/-- Model of Python `str.lower()` (ASCII case folding). -/
def pyLower (s : String) : String := ⟨s.data.map Char.toLower⟩

/-- Model of `PubChemResolveTool._norm_name`: `s.strip().lower()`. -/
def normName (s : String) : String := pyLower (pyStrip s)

/-- A JSON-storable field value: `null`, a string, or an integer. -/
inductive JVal where
  | null
  | str (s : String)
  | int (n : Int)
deriving DecidableEq, Repr

/-- Python `str(v)` on a field value. -/
def JVal.pyStr : JVal → String
  | .null => "None"
  | .str s => s
  | .int n => toString n

/-- One cached canonical record (the value type of `self._cache`). -/
structure ChemRecord where
  iupac_name : Option String
  inchikey : Option String
  smiles : Option String
  common_name : Option String
  cid : JVal
  formula : Option String
deriving DecidableEq, Repr

/-- Python `(v or "")` for a field that is `None` or a string. -/
def orEmpty : Option String → String
  | none => ""
  | some s => s

/-- Model of `cid_str = str(cid).strip() if cid not in (None, "") else ""`. -/
def cidStr (c : JVal) : String :=
  if c = .null ∨ c = .str "" then "" else pyStrip c.pyStr

/-- The store `self._cache`: insertion-ordered mapping written key → record. -/
abbrev Store := List (String × ChemRecord)

/-- Python `dict.get` on the store (a key occurs at most once). -/
def Store.get? : Store → String → Option ChemRecord
  | [], _ => none
  | e :: rest, k => if e.1 = k then some e.2 else Store.get? rest k

/-- Python `d[k] = v`: replace in place if present, else append. -/
def Store.setKey (s : Store) (k : String) (v : ChemRecord) : Store :=
  if s.any (fun e => e.1 == k) then
    s.map (fun e => if e.1 = k then (k, v) else e)
  else s ++ [(k, v)]

/-- An alias table (`_alias_cs` or `_alias_ci`); only `.get` is observed. -/
abbrev Tbl := String → Option String

/-- Result of Python `dict.clear()` / a fresh dict. -/
def Tbl.empty : Tbl := fun _ => none

/-- Python `d[k] = v` on an alias table. -/
def Tbl.set (t : Tbl) (k v : String) : Tbl :=
  fun x => if x = k then some v else t x

/-- Case-insensitive alias sources of one store entry, before normalization:
`filter(None, {written, name, common_name})` with `name`/`common_name`
already stripped (`_rebuild_alias_indexes`, lines 61–71). -/
def ciKeysOf (written : String) (r : ChemRecord) : List String :=
  [written, pyStrip (orEmpty r.iupac_name), pyStrip (orEmpty r.common_name)].filter
    (fun a => a ≠ "")

/-- Case-sensitive structural aliases of one record:
`filter(None, {inchikey, smiles, formula, cid_str})`, all stripped
(`_rebuild_alias_indexes`, lines 62–75). -/
def csKeysOf (r : ChemRecord) : List String :=
  [pyStrip (orEmpty r.inchikey), pyStrip (orEmpty r.smiles),
   pyStrip (orEmpty r.formula), cidStr r.cid].filter (fun a => a ≠ "")

/-- Alias contributions of one store entry: the two `for alias in ...` loops
of `_rebuild_alias_indexes` (ci entries keyed by `_norm_name`, cs exact). -/
def addRecordAliases (t : Tbl × Tbl) (e : String × ChemRecord) : Tbl × Tbl :=
  ((ciKeysOf e.1 e.2).foldl (fun m a => m.set (normName a) e.1) t.1,
   (csKeysOf e.2).foldl (fun m a => m.set a e.1) t.2)

/-- Model of `_rebuild_alias_indexes`: clear both tables and refill from the
store in insertion order (later entries overwrite colliding aliases). The
first component is `_alias_ci`, the second `_alias_cs`. -/
def rebuildAliases (s : Store) : Tbl × Tbl :=
  s.foldl addRecordAliases (Tbl.empty, Tbl.empty)

/-- JSON string escaping for one character (as produced by `json.dumps`). -/
def escChar (c : Char) : List Char :=
  if c = '"' then ['\\', '"']
  else if c = '\\' then ['\\', '\\']
  else if c = '\n' then ['\\', 'n']
  else if c = '\t' then ['\\', 't']
  else if c = '\r' then ['\\', 'r']
  else [c]

/-- JSON serialization of a string literal. -/
def jsonStr (s : String) : String := "\"" ++ ⟨(s.data.map escChar).flatten⟩ ++ "\""

/-- JSON serialization of a field value. -/
def JVal.dump : JVal → String
  | .null => "null"
  | .str s => jsonStr s
  | .int n => toString n

/-- JSON serialization of an optional string field. -/
def optDump : Option String → String
  | none => "null"
  | some s => jsonStr s

/-- Model of `json.dumps(rec, indent=2)` at nesting prefix `pre`; field order
is the dict insertion order used by both record literals in the source. -/
def dumpRecordWith (pre : String) (r : ChemRecord) : String :=
  "\x7b\n" ++ pre ++ "  \"iupac_name\": " ++ optDump r.iupac_name ++
  ",\n" ++ pre ++ "  \"inchikey\": " ++ optDump r.inchikey ++
  ",\n" ++ pre ++ "  \"smiles\": " ++ optDump r.smiles ++
  ",\n" ++ pre ++ "  \"common_name\": " ++ optDump r.common_name ++
  ",\n" ++ pre ++ "  \"cid\": " ++ r.cid.dump ++
  ",\n" ++ pre ++ "  \"formula\": " ++ optDump r.formula ++
  "\n" ++ pre ++ "\x7d"

/-- Model of `json.dumps(rec, indent=2)` (the "json" output of `forward`). -/
def dumpRecord (r : ChemRecord) : String := dumpRecordWith "" r

/-- Model of `json.dumps(self._cache, indent=2)` written by `_persist_cache`. -/
def dumpStore : Store → String
  | [] => "\x7b\x7d"
  | e :: rest =>
    "\x7b\n" ++
    String.intercalate ",\n"
      ((e :: rest).map (fun e => "  " ++ jsonStr e.1 ++ ": " ++ dumpRecordWith "  " e.2)) ++
    "\n\x7d"

/-- The tool's mutable state: the store, both alias tables and the durable
cache file contents. -/
structure ToolState where
  cache : Store
  aliasCI : Tbl
  aliasCS : Tbl
  file : String

/-- State whose alias tables and durable file are derived from the store —
the shape produced by `_load_cache` and `_add_to_cache`. -/
def mkState (s : Store) : ToolState :=
  ⟨s, (rebuildAliases s).1, (rebuildAliases s).2, dumpStore s⟩

/-- Model of `_add_to_cache`: write the record under `written`, rebuild both
alias tables in full, then rewrite the whole durable file. -/
def addToCache (st : ToolState) (written : String) (r : ChemRecord) : ToolState :=
  mkState (st.cache.setKey written r)

/-- Model of `_lookup_cache` (lines 99–115): case-sensitive table first
(`if written:` skips a falsy hit), then the case-insensitive table under
`_norm_name`, then a direct store access with the stripped query. -/
def lookupCache (st : ToolState) (query : String) : Option ChemRecord :=
  if pyStrip query = "" then none
  else
    let q := pyStrip query
    match (st.aliasCS q).filter (fun w => w ≠ "") with
    | some w => st.cache.get? w
    | none =>
      match (st.aliasCI (normName q)).filter (fun w => w ≠ "") with
      | some w => st.cache.get? w
      | none => st.cache.get? q

/-- The negative record cached when the adapter finds nothing (lines 156–163). -/
def negativeRecord : ChemRecord := ⟨none, none, none, none, .null, none⟩

/-- The six valid single-field output formats. -/
def validFields : List String :=
  ["iupac_name", "inchikey", "smiles", "common_name", "cid", "formula"]

/-- Python `rec.get(output_format)` on a record. -/
def ChemRecord.getField (r : ChemRecord) (f : String) : JVal :=
  if f = "iupac_name" then (r.iupac_name.map .str).getD .null
  else if f = "inchikey" then (r.inchikey.map .str).getD .null
  else if f = "smiles" then (r.smiles.map .str).getD .null
  else if f = "common_name" then (r.common_name.map .str).getD .null
  else if f = "cid" then r.cid
  else if f = "formula" then (r.formula.map .str).getD .null
  else .null

/-- Result of one `forward` call: a returned string or a raised `ValueError`. -/
inductive FwdOut where
  | ret (s : String)
  | err (s : String)
deriving DecidableEq, Repr

/-- The f-string `f"No PubChem result found for: \x7bquery\x7d"`. -/
def noResultMsg (query : String) : String := "No PubChem result found for: " ++ query

/-- The `ValueError` message for an unknown `output_format` (lines 172–174). -/
def invalidFormatMsg : String :=
  "output_format must be one of \x7b\x27iupac_name\x27,\x27inchikey\x27,\x27smiles\x27,\x27common_name\x27,\x27cid\x27,\x27formula\x27,\x27json\x27\x7d"

/-- Step 3 of `forward` (lines 168–178): render the resolved record in the
requested output format. -/
def render (r : ChemRecord) (fmt query : String) : FwdOut :=
  if fmt = "json" then .ret (dumpRecord r)
  else if fmt ∉ validFields then .err invalidFormatMsg
  else
    let v := r.getField fmt
    if v = .null ∨ v = .str "" then
      .ret ("No value for \x27" ++ fmt ++ "\x27 found for: " ++ query)
    else .ret v.pyStr

/-- Model of `PubChemResolveTool.forward` (lines 140–178), parameterized by
the fetch adapter `f` (= `_fetch_from_pubchem`). The result carries the
output, the successor state and the number of adapter invocations. -/
def forward (f : String → Option ChemRecord) (st : ToolState)
    (query output_format : String) : FwdOut × ToolState × Nat :=
  if pyStrip query = "" then (.err "Query must be a non-empty string.", st, 0)
  else
    let fmt := if output_format = "" then "json" else output_format
    match lookupCache st query with
    | some r => (render r fmt query, st, 0)
    | none =>
      match f query with
      | none =>
        (.ret (noResultMsg query), addToCache st query negativeRecord, 1)
      | some fetched =>
        (render fetched fmt query, addToCache st query fetched, 1)

/-- Attributes of a `pubchempy` compound, as read by `_fetch_from_pubchem`. -/
structure Compound where
  iupac_name : Option String
  inchikey : Option String
  isomeric_smiles : Option String
  smiles : Option String
  synonyms : List String
  cid : Option Int
  molecular_formula : Option String

/-- Python `(x or y)` for an optional string against a string default. -/
def pyOrStr (x : Option String) (y : String) : String :=
  match x with
  | none => y
  | some s => if s = "" then y else s

/-- The record literal built from a found compound (lines 126–133). In
particular `"cid": getattr(c, "cid", None) or ""` keeps the integer CID. -/
def recordOfCompound (c : Compound) : ChemRecord :=
  { iupac_name := some (pyOrStr c.iupac_name "")
    inchikey := some (pyOrStr c.inchikey "")
    smiles := some (pyOrStr c.isomeric_smiles (pyOrStr c.smiles ""))
    common_name := some (pyOrStr ((c.synonyms.head?).bind (fun s => some s)) "")
    cid := match c.cid with
           | none => .str ""
           | some n => if n = 0 then .str "" else .int n
    formula := some (pyOrStr c.molecular_formula "") }

/-- Namespace trial loop of `_fetch_from_pubchem` (lines 118–137):
`getCompounds tok ns = none` models a raised exception (silently skipped),
`some []` an empty result list. -/
def fetchTry (getCompounds : String → String → Option (List Compound))
    (token : String) : List String → Option ChemRecord
  | [] => none
  | ns :: rest =>
    match getCompounds token ns with
    | none => fetchTry getCompounds token rest
    | some [] => fetchTry getCompounds token rest
    | some (c :: _) => some (recordOfCompound c)

/-- Model of `_fetch_from_pubchem`: try the five namespaces in order. -/
def fetchFromPubchem (getCompounds : String → String → Option (List Compound))
    (token : String) : Option ChemRecord :=
  fetchTry getCompounds token ["inchikey", "smiles", "formula", "name", "cid"]

/-- Every written key of the store is non-empty after stripping (true of all
keys `forward` can insert, since the query is validated first). -/
def goodKeys (s : Store) : Prop := ∀ e ∈ s, pyStrip e.1 ≠ ""

/-- A store with distinct keys, all non-empty after stripping. -/
def GoodStore (s : Store) : Prop := (s.map (fun e => e.1)).Nodup ∧ goodKeys s

instance (s : Store) : Decidable (goodKeys s) :=
  List.decidableBAll _ s

instance (s : Store) : Decidable (GoodStore s) :=
  inferInstanceAs (Decidable (_ ∧ _))

/-- Well-formed tool state: alias tables and durable file derived from the
store by rebuild/persist, and the store itself well-shaped. -/
def WF (st : ToolState) : Prop :=
  st.aliasCI = (rebuildAliases st.cache).1 ∧
  st.aliasCS = (rebuildAliases st.cache).2 ∧
  st.file = dumpStore st.cache ∧
  GoodStore st.cache

/-- Written keys of the store entries whose case-insensitive aliases contain
`a`, in store order; the rebuilt `_alias_ci` maps `a` to the last of them. -/
def ciOwners (s : Store) (a : String) : List String :=
  (s.filter (fun e => decide (a ∈ (ciKeysOf e.1 e.2).map normName))).map
    (fun e => e.1)

/-- Written keys of the store entries whose case-sensitive aliases contain
`a`, in store order; the rebuilt `_alias_cs` maps `a` to the last of them. -/
def csOwners (s : Store) (a : String) : List String :=
  (s.filter (fun e => decide (a ∈ csKeysOf e.2))).map (fun e => e.1)

/-- Lookup procedure transcribed from the specification's wording (claim C4):
try (a) an exact, case-preserving match of the trimmed query in the
case-sensitive table; (b) the trimmed-and-lowercased query in the
case-insensitive table; (c) a direct store access with the trimmed query;
return the matched record or absence. Compared against `lookupCache` below. -/
def lookupSpec (st : ToolState) (query : String) : Option ChemRecord :=
  match st.aliasCS (pyStrip query) with
  | some w => st.cache.get? w
  | none =>
    match st.aliasCI (pyLower (pyStrip query)) with
    | some w => st.cache.get? w
    | none => st.cache.get? (pyStrip query)

/-- Adapter stub that finds nothing (a call-counting negative stub). -/
def fNone : String → Option ChemRecord := fun _ => none

/-- A record as fetched for the written key "water", carrying the structural
alias "ABC-123" as its InChIKey. -/
def recWater : ChemRecord :=
  ⟨some "oxidane", some "ABC-123", some "O", some "water", .str "962",
    some "H2O"⟩

/-- A later-fetched record whose common name "Water" collides, after
normalization, with the written key "water" of `recWater`. -/
def recDhmo : ChemRecord :=
  ⟨some "oxidane", some "KEY-2", some "OO", some "Water", .str "1",
    some "H4O2"⟩

/-- One-record store fixture. -/
def storeW : Store := [("water", recWater)]

/-- Two-record store fixture exhibiting a name-alias collision: the second
record's common name shadows the first record's own written key. This store
is reachable by two `forward` calls on an empty cache. -/
def storeShadow : Store := [("water", recWater), ("dihydrogen monoxide", recDhmo)]

/-- Adapter stub resolving exactly the token "water". -/
def fWater : String → Option ChemRecord :=
  fun q => if q = "water" then some recWater else none

/-- A pubchempy compound as returned for "water": its `cid` attribute is the
integer 962. -/
def waterCompound : Compound :=
  ⟨some "oxidane", some "XLYOFNOQVPJJNP-UHFFFAOYSA-N", some "O", none,
    ["water"], some 962, some "H2O"⟩

/-! ### Lemmas about the Python string primitives -/

theorem dropTrail_nil (p : Char → Bool) : dropTrail p [] = [] := rfl

theorem dropTrail_cons (p : Char → Bool) (c : Char) (l : List Char) :
    dropTrail p (c :: l) =
      if dropTrail p l = [] ∧ p c then [] else c :: dropTrail p l := rfl

theorem dropTrail_idem (p : Char → Bool) (l : List Char) :
    dropTrail p (dropTrail p l) = dropTrail p l := by
  induction l with
  | nil => rfl
  | cons c l ih =>
    rw [dropTrail_cons]
    by_cases h : dropTrail p l = [] ∧ p c
    · rw [if_pos h]; exact dropTrail_nil p
    · rw [if_neg h, dropTrail_cons, ih, if_neg h]

theorem dropTrail_eq_cons (p : Char → Bool) {l : List Char} {x : Char}
    {xs : List Char} (h : dropTrail p l = x :: xs) : ∃ ys, l = x :: ys := by
  cases l with
  | nil => exact absurd h (by simp [dropTrail_nil])
  | cons c l =>
    rw [dropTrail_cons] at h
    by_cases hc : dropTrail p l = [] ∧ p c
    · rw [if_pos hc] at h; exact absurd h (by simp)
    · rw [if_neg hc] at h
      exact ⟨l, by rw [(List.cons.injEq ..).mp h |>.1]⟩

theorem dropWhile_eq_cons_not {p : Char → Bool} {l : List Char} {x : Char}
    {xs : List Char} (h : l.dropWhile p = x :: xs) : p x = false := by
  have hh := List.head?_dropWhile_not p l
  rw [h] at hh
  simpa using hh

theorem stripList_idem (l : List Char) : stripList (stripList l) = stripList l := by
  unfold stripList
  have hdw : (dropTrail isPyWS (l.dropWhile isPyWS)).dropWhile isPyWS =
      dropTrail isPyWS (l.dropWhile isPyWS) := by
    cases hdt : dropTrail isPyWS (l.dropWhile isPyWS) with
    | nil => rfl
    | cons x xs =>
      obtain ⟨ys, hys⟩ := dropTrail_eq_cons _ hdt
      have hx : isPyWS x = false := dropWhile_eq_cons_not hys
      simp [hx]
  rw [hdw, dropTrail_idem]

theorem pyStrip_idem (s : String) : pyStrip (pyStrip s) = pyStrip s := by
  simp [pyStrip, stripList_idem]

theorem pyStrip_empty : pyStrip "" = "" := rfl

theorem ne_empty_of_pyStrip {s : String} (h : pyStrip s ≠ "") : s ≠ "" := by
  intro hc
  exact h (by rw [hc]; rfl)

theorem pyLower_eq_empty {s : String} (h : pyLower s = "") : s = "" := by
  cases s with
  | mk l =>
    have h1 : l.map Char.toLower = [] := congrArg String.data h
    have h2 : l = [] := by simpa using h1
    rw [h2]

theorem normName_pyStrip (s : String) : normName (pyStrip s) = normName s := by
  simp [normName, pyStrip_idem]

theorem normName_ne_empty {s : String} (h : pyStrip s ≠ "") : normName s ≠ "" :=
  fun hc => h (pyLower_eq_empty hc)

/-! ### Characterization of the rebuilt alias tables -/

theorem foldSet_apply (ks : List String) (g : String → String) (w : String)
    (t : Tbl) (x : String) :
    (ks.foldl (fun m a => Tbl.set m (g a) w) t) x =
      if x ∈ ks.map g then some w else t x := by
  induction ks generalizing t with
  | nil => simp
  | cons a ks ih =>
    rw [List.foldl_cons, ih]
    by_cases hx : x ∈ ks.map g
    · simp [hx]
    · by_cases ha : x = g a
      · simp [hx, ha, Tbl.set]
      · simp [hx, ha, Tbl.set]

theorem rebuildAliases_append (s : Store) (e : String × ChemRecord) :
    rebuildAliases (s ++ [e]) = addRecordAliases (rebuildAliases s) e := by
  simp [rebuildAliases]

theorem ciOwners_append (s : Store) (e : String × ChemRecord) (a : String) :
    ciOwners (s ++ [e]) a =
      ciOwners s a ++
        (if a ∈ (ciKeysOf e.1 e.2).map normName then [e.1] else []) := by
  unfold ciOwners
  rw [List.filter_append, List.map_append]
  congr 1
  by_cases h : a ∈ (ciKeysOf e.1 e.2).map normName
  · rw [if_pos h, List.filter_cons, if_pos (decide_eq_true h), List.filter_nil,
      List.map_cons, List.map_nil]
  · rw [if_neg h, List.filter_cons, if_neg (by simp [h]), List.filter_nil,
      List.map_nil]

theorem csOwners_append (s : Store) (e : String × ChemRecord) (a : String) :
    csOwners (s ++ [e]) a =
      csOwners s a ++ (if a ∈ csKeysOf e.2 then [e.1] else []) := by
  unfold csOwners
  rw [List.filter_append, List.map_append]
  congr 1
  by_cases h : a ∈ csKeysOf e.2
  · rw [if_pos h, List.filter_cons, if_pos (decide_eq_true h), List.filter_nil,
      List.map_cons, List.map_nil]
  · rw [if_neg h, List.filter_cons, if_neg (by simp [h]), List.filter_nil,
      List.map_nil]

theorem rebuildAliases_fst_apply (s : Store) (a : String) :
    (rebuildAliases s).1 a = (ciOwners s a).getLast? := by
  induction s using List.reverseRecOn with
  | nil => rfl
  | append_singleton s e ih =>
    rw [rebuildAliases_append, ciOwners_append]
    show ((ciKeysOf e.1 e.2).foldl (fun m x => Tbl.set m (normName x) e.1)
      (rebuildAliases s).1) a = _
    rw [foldSet_apply]
    by_cases h : a ∈ (ciKeysOf e.1 e.2).map normName
    · rw [if_pos h, if_pos h, List.getLast?_concat]
    · rw [if_neg h, if_neg h, List.append_nil, ih]

theorem rebuildAliases_snd_apply (s : Store) (a : String) :
    (rebuildAliases s).2 a = (csOwners s a).getLast? := by
  induction s using List.reverseRecOn with
  | nil => rfl
  | append_singleton s e ih =>
    rw [rebuildAliases_append, csOwners_append]
    show ((csKeysOf e.2).foldl (fun m x => Tbl.set m x e.1)
      (rebuildAliases s).2) a = _
    rw [foldSet_apply (g := fun x => x)]
    rw [List.map_id']
    by_cases h : a ∈ csKeysOf e.2
    · rw [if_pos h, if_pos h, List.getLast?_concat]
    · rw [if_neg h, if_neg h, List.append_nil, ih]

theorem mem_of_ciOwners {s : Store} {a w : String} (h : w ∈ ciOwners s a) :
    ∃ r, (w, r) ∈ s ∧ a ∈ (ciKeysOf w r).map normName := by
  unfold ciOwners at h
  obtain ⟨e, he, hw⟩ := List.mem_map.mp h
  obtain ⟨hmem, hcl⟩ := List.mem_filter.mp he
  obtain ⟨k, r⟩ := e
  cases hw
  exact ⟨r, hmem, of_decide_eq_true hcl⟩

theorem mem_of_csOwners {s : Store} {a w : String} (h : w ∈ csOwners s a) :
    ∃ r, (w, r) ∈ s ∧ a ∈ csKeysOf r := by
  unfold csOwners at h
  obtain ⟨e, he, hw⟩ := List.mem_map.mp h
  obtain ⟨hmem, hcl⟩ := List.mem_filter.mp he
  obtain ⟨k, r⟩ := e
  cases hw
  exact ⟨r, hmem, of_decide_eq_true hcl⟩

theorem ciOwners_mem_of_claim {s : Store} {a w : String} {r : ChemRecord}
    (h : (w, r) ∈ s) (ha : a ∈ (ciKeysOf w r).map normName) :
    w ∈ ciOwners s a := by
  unfold ciOwners
  exact List.mem_map.mpr ⟨(w, r), List.mem_filter.mpr ⟨h, decide_eq_true ha⟩, rfl⟩

theorem ci_apply_some {s : Store} {a w : String}
    (h : (rebuildAliases s).1 a = some w) :
    ∃ r, (w, r) ∈ s ∧ a ∈ (ciKeysOf w r).map normName := by
  rw [rebuildAliases_fst_apply] at h
  exact mem_of_ciOwners (List.mem_of_getLast?_eq_some h)

theorem cs_apply_some {s : Store} {a w : String}
    (h : (rebuildAliases s).2 a = some w) :
    ∃ r, (w, r) ∈ s ∧ a ∈ csKeysOf r := by
  rw [rebuildAliases_snd_apply] at h
  exact mem_of_csOwners (List.mem_of_getLast?_eq_some h)

theorem ci_apply_isSome_of_claim {s : Store} {a w : String} {r : ChemRecord}
    (h : (w, r) ∈ s) (ha : a ∈ (ciKeysOf w r).map normName) :
    ∃ w', (rebuildAliases s).1 a = some w' := by
  rw [rebuildAliases_fst_apply]
  have hne : ciOwners s a ≠ [] :=
    List.ne_nil_of_mem (ciOwners_mem_of_claim h ha)
  exact Option.isSome_iff_exists.mp (List.getLast?_isSome.mpr hne)

/-! ### Store access lemmas -/

theorem Store.get?_eq_none_of {s : Store} {k : String}
    (h : ∀ e ∈ s, e.1 ≠ k) : Store.get? s k = none := by
  induction s with
  | nil => rfl
  | cons e s ih =>
    rw [Store.get?, if_neg (h e (List.mem_cons_self e s))]
    exact ih fun e' he' => h e' (List.mem_cons_of_mem e he')

theorem Store.get?_isSome_of_mem {s : Store} {k : String} {r : ChemRecord}
    (h : (k, r) ∈ s) : ∃ r', Store.get? s k = some r' := by
  induction s with
  | nil => cases h
  | cons e s ih =>
    rw [Store.get?]
    by_cases hk : e.1 = k
    · exact ⟨e.2, by rw [if_pos hk]⟩
    · rcases List.mem_cons.mp h with h1 | h2
      · exact absurd (by rw [← h1]) hk
      · rw [if_neg hk]; exact ih h2

theorem Store.get?_mem {s : Store} {k : String} {r : ChemRecord}
    (h : Store.get? s k = some r) : (k, r) ∈ s := by
  induction s with
  | nil => cases h
  | cons e s ih =>
    rw [Store.get?] at h
    by_cases hk : e.1 = k
    · obtain ⟨k0, r0⟩ := e
      rw [if_pos hk] at h
      cases hk
      cases Option.some.inj h
      exact List.mem_cons_self _ _
    · rw [if_neg hk] at h
      exact List.mem_cons_of_mem _ (ih h)

theorem Store.get?_append_none {s t : Store} {k : String}
    (h : Store.get? s k = none) :
    Store.get? (s ++ t) k = Store.get? t k := by
  induction s with
  | nil => rfl
  | cons e s ih =>
    rw [Store.get?] at h
    by_cases hk : e.1 = k
    · rw [if_pos hk] at h; cases h
    · rw [List.cons_append, Store.get?, if_neg hk]
      exact ih (by rw [if_neg hk] at h; exact h)

theorem Store.setKey_of_fresh {s : Store} {k : String} {v : ChemRecord}
    (h : ∀ e ∈ s, e.1 ≠ k) : Store.setKey s k v = s ++ [(k, v)] := by
  have hany : s.any (fun e => e.1 == k) = false := by
    rw [List.any_eq_false]
    intro e he
    simpa using h e he
  rw [Store.setKey, hany]
  simp

/-! ### Well-formed state accessors -/

theorem WF.tblCI {st : ToolState} (h : WF st) :
    st.aliasCI = (rebuildAliases st.cache).1 := h.1

theorem WF.tblCS {st : ToolState} (h : WF st) :
    st.aliasCS = (rebuildAliases st.cache).2 := h.2.1

theorem WF.fileEq {st : ToolState} (h : WF st) :
    st.file = dumpStore st.cache := h.2.2.1

theorem WF.nodupKeys {st : ToolState} (h : WF st) :
    (st.cache.map (fun e => e.1)).Nodup := h.2.2.2.1

theorem WF.stripKeys {st : ToolState} (h : WF st) : goodKeys st.cache :=
  h.2.2.2.2

theorem WF_mkState {s : Store} (h : GoodStore s) : WF (mkState s) :=
  ⟨rfl, rfl, rfl, h⟩

theorem ci_value_ne_empty {s : Store} (hgk : goodKeys s) {a w : String}
    (h : (rebuildAliases s).1 a = some w) : w ≠ "" := by
  obtain ⟨r, hmem, _⟩ := ci_apply_some h
  exact ne_empty_of_pyStrip (hgk _ hmem)

theorem cs_value_ne_empty {s : Store} (hgk : goodKeys s) {a w : String}
    (h : (rebuildAliases s).2 a = some w) : w ≠ "" := by
  obtain ⟨r, hmem, _⟩ := cs_apply_some h
  exact ne_empty_of_pyStrip (hgk _ hmem)

/-! ### Behavior of the cache lookup -/

theorem lookupCache_eq (st : ToolState) (query : String)
    (h : pyStrip query ≠ "") :
    lookupCache st query =
      match (st.aliasCS (pyStrip query)).filter (fun w => w ≠ "") with
      | some w => st.cache.get? w
      | none =>
        match (st.aliasCI (normName (pyStrip query))).filter
            (fun w => w ≠ "") with
        | some w => st.cache.get? w
        | none => st.cache.get? (pyStrip query) := by
  unfold lookupCache
  rw [if_neg h]

theorem lookupCache_mkState (s : Store) (q : String) (hq : pyStrip q ≠ "") :
    lookupCache (mkState s) q =
      match ((rebuildAliases s).2 (pyStrip q)).filter (fun w => w ≠ "") with
      | some w => Store.get? s w
      | none =>
        match ((rebuildAliases s).1 (normName (pyStrip q))).filter
            (fun w => w ≠ "") with
        | some w => Store.get? s w
        | none => Store.get? s (pyStrip q) :=
  lookupCache_eq (mkState s) q hq

theorem mem_ciKeysOf_self {k : String} (r : ChemRecord) (hk : k ≠ "") :
    k ∈ ciKeysOf k r := by
  unfold ciKeysOf
  exact List.mem_filter.mpr ⟨List.mem_cons_self _ _, decide_eq_true hk⟩

theorem ciKeysOf_cases {k : String} {r : ChemRecord} {x : String}
    (hx : x ∈ ciKeysOf k r) :
    (x = k ∨ x = pyStrip (orEmpty r.iupac_name) ∨
      x = pyStrip (orEmpty r.common_name)) ∧ x ≠ "" := by
  obtain ⟨hmem, hne⟩ := List.mem_filter.mp hx
  exact ⟨by simpa using hmem, of_decide_eq_true hne⟩

theorem ciKey_norm_ne_empty {s : Store} (hgk : goodKeys s) {k : String}
    {r : ChemRecord} (hk : (k, r) ∈ s) {x : String} (hx : x ∈ ciKeysOf k r) :
    normName x ≠ "" := by
  obtain ⟨hcase, hxne⟩ := ciKeysOf_cases hx
  intro hc
  have hps : pyStrip x = "" := pyLower_eq_empty hc
  rcases hcase with h1 | h1 | h1
  · exact hgk _ hk (h1 ▸ hps)
  · subst h1
    rw [pyStrip_idem] at hps
    exact hxne hps
  · subst h1
    rw [pyStrip_idem] at hps
    exact hxne hps

theorem lookup_isSome_of_ciClaim {st : ToolState} (hwf : WF st) {k : String}
    {r : ChemRecord} (hk : (k, r) ∈ st.cache) {x : String}
    (hx : x ∈ ciKeysOf k r) {q : String} (hq : normName q = normName x) :
    ∃ r', lookupCache st q = some r' := by
  have hxn : normName x ≠ "" := ciKey_norm_ne_empty hwf.stripKeys hk hx
  have hqs : pyStrip q ≠ "" := by
    intro hc
    apply hxn
    rw [← hq, normName, hc]
    rfl
  rw [lookupCache_eq st q hqs]
  rcases hcs : (st.aliasCS (pyStrip q)).filter (fun w => w ≠ "") with _ | w
  · have hclaim : normName x ∈ (ciKeysOf k r).map normName :=
      List.mem_map_of_mem _ hx
    obtain ⟨w', hw'⟩ :=
      ci_apply_isSome_of_claim (s := st.cache) hk hclaim
    have hw'ne : w' ≠ "" := ci_value_ne_empty hwf.stripKeys hw'
    have hfil : (st.aliasCI (normName (pyStrip q))).filter (fun w => w ≠ "") =
        some w' := by
      apply Option.filter_eq_some.mpr
      constructor
      · rw [Option.mem_def, hwf.tblCI, normName_pyStrip, hq]
        exact hw'
      · exact decide_eq_true hw'ne
    rw [hfil]
    obtain ⟨r2, hmem2, _⟩ := ci_apply_some hw'
    exact Store.get?_isSome_of_mem hmem2
  · obtain ⟨hw, hwne⟩ := Option.filter_eq_some.mp hcs
    rw [Option.mem_def, hwf.tblCS] at hw
    obtain ⟨r', hmem, _⟩ := cs_apply_some hw
    exact Store.get?_isSome_of_mem hmem

theorem lookup_isSome_of_normKey {st : ToolState} (hwf : WF st) {k : String}
    {r : ChemRecord} (hk : (k, r) ∈ st.cache) {q : String}
    (hq : normName q = normName k) : ∃ r', lookupCache st q = some r' :=
  lookup_isSome_of_ciClaim hwf hk
    (mem_ciKeysOf_self r (ne_empty_of_pyStrip (hwf.stripKeys _ hk))) hq

theorem lookup_isSome_of_mem {st : ToolState} (hwf : WF st) {k : String}
    {r : ChemRecord} (hk : (k, r) ∈ st.cache) :
    ∃ r', lookupCache st k = some r' :=
  lookup_isSome_of_normKey hwf hk rfl

theorem fresh_of_lookup_none {st : ToolState} (hwf : WF st) {q : String}
    (h : lookupCache st q = none) : ∀ e ∈ st.cache, e.1 ≠ q := by
  intro e he hc
  obtain ⟨k, r⟩ := e
  cases hc
  obtain ⟨r', hr'⟩ := lookup_isSome_of_mem hwf he
  rw [h] at hr'
  cases hr'

theorem csFilter_none_of_lookup_none {st : ToolState} (hwf : WF st)
    {q : String} (hqs : pyStrip q ≠ "") (h : lookupCache st q = none) :
    (st.aliasCS (pyStrip q)).filter (fun w => w ≠ "") = none := by
  rcases hcs : (st.aliasCS (pyStrip q)).filter (fun w => w ≠ "") with _ | w
  · rfl
  · exfalso
    obtain ⟨hw, hwne⟩ := Option.filter_eq_some.mp hcs
    rw [Option.mem_def, hwf.tblCS] at hw
    obtain ⟨r', hmem, _⟩ := cs_apply_some hw
    obtain ⟨r'', hget⟩ := Store.get?_isSome_of_mem hmem
    rw [lookupCache_eq st q hqs, hcs] at h
    change st.cache.get? w = none at h
    rw [hget] at h
    cases h

theorem cs_none_of_lookup_none {st : ToolState} (hwf : WF st) {q : String}
    (hqs : pyStrip q ≠ "") (h : lookupCache st q = none) :
    (rebuildAliases st.cache).2 (pyStrip q) = none := by
  have hf := csFilter_none_of_lookup_none hwf hqs h
  rcases hcs : (rebuildAliases st.cache).2 (pyStrip q) with _ | w
  · rfl
  · exfalso
    have hwne : w ≠ "" := cs_value_ne_empty hwf.stripKeys hcs
    have hsome : (st.aliasCS (pyStrip q)).filter (fun w => w ≠ "") = some w := by
      apply Option.filter_eq_some.mpr
      exact ⟨by rw [Option.mem_def, hwf.tblCS]; exact hcs, decide_eq_true hwne⟩
    rw [hsome] at hf
    cases hf

theorem addToCache_of_fresh {st : ToolState} {Q : String} {R : ChemRecord}
    (hfresh : ∀ e ∈ st.cache, e.1 ≠ Q) :
    addToCache st Q R = mkState (st.cache ++ [(Q, R)]) := by
  unfold addToCache
  rw [Store.setKey_of_fresh hfresh]

theorem lookup_addToCache_self {st : ToolState} (hwf : WF st) {Q : String}
    (hq : pyStrip Q ≠ "") (hmiss : lookupCache st Q = none) (R : ChemRecord) :
    lookupCache (addToCache st Q R) Q = some R := by
  have hfresh : ∀ e ∈ st.cache, e.1 ≠ Q := fresh_of_lookup_none hwf hmiss
  have hgetQ : Store.get? (st.cache ++ [(Q, R)]) Q = some R := by
    rw [Store.get?_append_none (Store.get?_eq_none_of hfresh), Store.get?,
      if_pos rfl]
  have hQne : Q ≠ "" := ne_empty_of_pyStrip hq
  rw [addToCache_of_fresh hfresh, lookupCache_mkState _ _ hq]
  have hcsold : csOwners st.cache (pyStrip Q) = [] := by
    apply List.getLast?_eq_none_iff.mp
    rw [← rebuildAliases_snd_apply]
    exact cs_none_of_lookup_none hwf hq hmiss
  by_cases hmemcs : pyStrip Q ∈ csKeysOf R
  · have hcsnew : (rebuildAliases (st.cache ++ [(Q, R)])).2 (pyStrip Q) =
        some Q := by
      rw [rebuildAliases_snd_apply, csOwners_append, hcsold, List.nil_append,
        if_pos hmemcs]
      rfl
    rw [hcsnew, Option.filter_some, if_pos (decide_eq_true hQne)]
    exact hgetQ
  · have hcsnew : (rebuildAliases (st.cache ++ [(Q, R)])).2 (pyStrip Q) =
        none := by
      rw [rebuildAliases_snd_apply, csOwners_append, hcsold, List.nil_append,
        if_neg hmemcs]
      rfl
    rw [hcsnew]
    have hcinew : (rebuildAliases (st.cache ++ [(Q, R)])).1
        (normName (pyStrip Q)) = some Q := by
      rw [rebuildAliases_fst_apply, ciOwners_append]
      have hclaim : normName (pyStrip Q) ∈ (ciKeysOf Q R).map normName := by
        apply List.mem_map.mpr
        refine ⟨Q, ?_, (normName_pyStrip Q).symm⟩
        unfold ciKeysOf
        apply List.mem_filter.mpr
        exact ⟨List.mem_cons_self _ _, decide_eq_true hQne⟩
      rw [if_pos hclaim, List.getLast?_concat]
    rw [hcinew, Option.filter_some, if_pos (decide_eq_true hQne)]
    exact hgetQ

theorem GoodStore_append {st : ToolState} (hwf : WF st) {Q : String}
    (hq : pyStrip Q ≠ "") (hfresh : ∀ e ∈ st.cache, e.1 ≠ Q)
    (R : ChemRecord) : GoodStore (st.cache ++ [(Q, R)]) := by
  constructor
  · rw [List.map_append]
    apply List.Nodup.append hwf.nodupKeys (List.nodup_singleton Q)
    intro a ha hb
    obtain ⟨e, he, hea⟩ := List.mem_map.mp ha
    rw [List.mem_singleton] at hb
    exact hfresh e he (by rw [hea, hb])
  · intro e he
    rcases List.mem_append.mp he with h1 | h2
    · exact hwf.stripKeys e h1
    · rw [List.mem_singleton] at h2
      rw [h2]
      exact hq

theorem WF_addToCache {st : ToolState} (hwf : WF st) {Q : String}
    (hq : pyStrip Q ≠ "") (hmiss : lookupCache st Q = none) (R : ChemRecord) :
    WF (addToCache st Q R) := by
  have hfresh := fresh_of_lookup_none hwf hmiss
  rw [addToCache_of_fresh hfresh]
  exact WF_mkState (GoodStore_append hwf hq hfresh R)

/-! ### Equations for `forward` -/

theorem forward_hit {f : String → Option ChemRecord} {st : ToolState}
    {q fmt : String} {r : ChemRecord} (hq : pyStrip q ≠ "")
    (h : lookupCache st q = some r) :
    forward f st q fmt =
      (render r (if fmt = "" then "json" else fmt) q, st, 0) := by
  unfold forward
  rw [if_neg hq, h]

theorem forward_miss_none {f : String → Option ChemRecord} {st : ToolState}
    {q fmt : String} (hq : pyStrip q ≠ "") (hmiss : lookupCache st q = none)
    (hf : f q = none) :
    forward f st q fmt =
      (.ret (noResultMsg q), addToCache st q negativeRecord, 1) := by
  unfold forward
  rw [if_neg hq, hmiss, hf]

theorem forward_miss_some {f : String → Option ChemRecord} {st : ToolState}
    {q fmt : String} {r : ChemRecord} (hq : pyStrip q ≠ "")
    (hmiss : lookupCache st q = none) (hf : f q = some r) :
    forward f st q fmt =
      (render r (if fmt = "" then "json" else fmt) q, addToCache st q r, 1) := by
  unfold forward
  rw [if_neg hq, hmiss, hf]

theorem render_json (r : ChemRecord) (q : String) :
    render r "json" q = .ret (dumpRecord r) := rfl

/-! ### Exclusive-alias lookups -/

theorem Store.get?_of_mem_nodup {s : Store} {k : String} {r : ChemRecord}
    (hnd : (s.map (fun e => e.1)).Nodup) (h : (k, r) ∈ s) :
    Store.get? s k = some r := by
  induction s with
  | nil => cases h
  | cons e s ih =>
    rw [List.map_cons, List.nodup_cons] at hnd
    rw [Store.get?]
    by_cases hk : e.1 = k
    · rcases List.mem_cons.mp h with h1 | h2
      · rw [if_pos hk, ← h1]
      · exfalso
        apply hnd.1
        rw [hk]
        exact List.mem_map.mpr ⟨(k, r), h2, rfl⟩
    · rcases List.mem_cons.mp h with h1 | h2
      · exact absurd (by rw [← h1]) hk
      · rw [if_neg hk]
        exact ih hnd.2 h2

theorem getLast?_all_eq {l : List String} {W : String} (hne : l ≠ [])
    (hall : ∀ x ∈ l, x = W) : l.getLast? = some W := by
  obtain ⟨w', hw'⟩ :=
    Option.isSome_iff_exists.mp (List.getLast?_isSome.mpr hne)
  rw [hw', hall w' (List.mem_of_getLast?_eq_some hw')]

theorem csKeysOf_cases {r : ChemRecord} {x : String} (hx : x ∈ csKeysOf r) :
    (x = pyStrip (orEmpty r.inchikey) ∨ x = pyStrip (orEmpty r.smiles) ∨
      x = pyStrip (orEmpty r.formula) ∨ x = cidStr r.cid) ∧ x ≠ "" := by
  obtain ⟨hmem, hne⟩ := List.mem_filter.mp hx
  exact ⟨by simpa using hmem, of_decide_eq_true hne⟩

theorem csKey_stripped {r : ChemRecord} {x : String} (hx : x ∈ csKeysOf r) :
    pyStrip x = x := by
  obtain ⟨hcase, hxne⟩ := csKeysOf_cases hx
  rcases hcase with h1 | h1 | h1 | h1 <;> try (subst h1; exact pyStrip_idem _)
  subst h1
  unfold cidStr at hxne ⊢
  by_cases hc : r.cid = .null ∨ r.cid = .str ""
  · rw [if_pos hc] at hxne
    exact absurd rfl hxne
  · rw [if_neg hc]
    exact pyStrip_idem _

theorem csOwners_mem_of_claim {s : Store} {a w : String} {r : ChemRecord}
    (h : (w, r) ∈ s) (ha : a ∈ csKeysOf r) : w ∈ csOwners s a := by
  unfold csOwners
  exact List.mem_map.mpr ⟨(w, r), List.mem_filter.mpr ⟨h, decide_eq_true ha⟩, rfl⟩

/-- Lookup of a structural alias that only the record of written key `W`
claims: the case-sensitive table resolves it to `W`'s record. -/
theorem lookup_exclusive_cs {st : ToolState} (hwf : WF st) {W : String}
    {R : ChemRecord} (hmem : (W, R) ∈ st.cache) {a : String}
    (ha : a ∈ csKeysOf R)
    (hexcl : ∀ e ∈ st.cache, a ∈ csKeysOf e.2 → e.1 = W) :
    lookupCache st a = some R := by
  have hane : a ≠ "" := (csKeysOf_cases ha).2
  have hstr : pyStrip a = a := csKey_stripped ha
  have haq : pyStrip a ≠ "" := by rw [hstr]; exact hane
  rw [lookupCache_eq st a haq, hstr]
  have hcs : (rebuildAliases st.cache).2 a = some W := by
    rw [rebuildAliases_snd_apply]
    apply getLast?_all_eq
    · exact List.ne_nil_of_mem
        (csOwners_mem_of_claim (a := a) hmem ha)
    · intro x hx
      obtain ⟨r', hmem', ha'⟩ := mem_of_csOwners hx
      exact hexcl _ hmem' ha'
  have hWne : W ≠ "" := ne_empty_of_pyStrip (hwf.stripKeys _ hmem)
  rw [hwf.tblCS, hcs, Option.filter_some, if_pos (decide_eq_true hWne)]
  exact Store.get?_of_mem_nodup hwf.nodupKeys hmem

/-- Lookup of the written key `W` itself when no other record claims `W`'s
trimmed form as a structural alias nor `W`'s normalization as a name alias. -/
theorem lookup_exclusive_written {st : ToolState} (hwf : WF st) {W : String}
    {R : ChemRecord} (hmem : (W, R) ∈ st.cache)
    (hexcl_cs : ∀ e ∈ st.cache, pyStrip W ∈ csKeysOf e.2 → e.1 = W)
    (hexcl_ci : ∀ e ∈ st.cache,
      normName W ∈ (ciKeysOf e.1 e.2).map normName → e.1 = W) :
    lookupCache st W = some R := by
  have hWs : pyStrip W ≠ "" := hwf.stripKeys _ hmem
  have hWne : W ≠ "" := ne_empty_of_pyStrip hWs
  have hget : Store.get? st.cache W = some R :=
    Store.get?_of_mem_nodup hwf.nodupKeys hmem
  rw [lookupCache_eq st W hWs]
  rcases hown : csOwners st.cache (pyStrip W) with _ | ⟨x, xs⟩
  · -- no structural claimant: the cs table misses, the ci table hits `W`
    have hcs : (rebuildAliases st.cache).2 (pyStrip W) = none := by
      rw [rebuildAliases_snd_apply, hown]
      rfl
    rw [hwf.tblCS, hcs]
    have hci : (rebuildAliases st.cache).1 (normName (pyStrip W)) = some W := by
      rw [normName_pyStrip, rebuildAliases_fst_apply]
      apply getLast?_all_eq
      · exact List.ne_nil_of_mem (ciOwners_mem_of_claim hmem
          (List.mem_map_of_mem _ (mem_ciKeysOf_self R hWne)))
      · intro x hx
        obtain ⟨r', hmem', ha'⟩ := mem_of_ciOwners hx
        exact hexcl_ci _ hmem' ha'
    rw [show (Option.filter (fun w => decide (w ≠ "")) none : Option String) =
        none from rfl]
    rw [hwf.tblCI, hci, Option.filter_some, if_pos (decide_eq_true hWne)]
    exact hget
  · -- a structural claimant exists: by exclusivity it is `W`'s own record
    have hcs : (rebuildAliases st.cache).2 (pyStrip W) = some W := by
      rw [rebuildAliases_snd_apply]
      apply getLast?_all_eq
      · rw [hown]; exact List.cons_ne_nil x xs
      · intro y hy
        obtain ⟨r', hmem', ha'⟩ := mem_of_csOwners hy
        exact hexcl_cs _ hmem' ha'
    rw [hwf.tblCS, hcs, Option.filter_some, if_pos (decide_eq_true hWne)]
    exact hget

/-! ### Empty-alias lemmas (for the empty-query corner of the lookup) -/

theorem cs_apply_empty (s : Store) : (rebuildAliases s).2 "" = none := by
  rcases h : (rebuildAliases s).2 "" with _ | w
  · rfl
  · exfalso
    obtain ⟨r, _, hkeys⟩ := cs_apply_some h
    exact absurd (csKeysOf_cases hkeys).2 (by simp)

theorem ci_apply_empty {s : Store} (hgk : goodKeys s) :
    (rebuildAliases s).1 "" = none := by
  rcases h : (rebuildAliases s).1 "" with _ | w
  · rfl
  · exfalso
    obtain ⟨r, hmem, hkeys⟩ := ci_apply_some h
    obtain ⟨a, ha, hna⟩ := List.mem_map.mp hkeys
    exact ciKey_norm_ne_empty hgk hmem ha hna

theorem get?_empty_none {s : Store} (hgk : goodKeys s) :
    Store.get? s "" = none :=
  Store.get?_eq_none_of fun e he hc => hgk e he (by rw [hc, pyStrip_empty])

/-! ### Claim theorems -/

/-- C10 (confirmed): a `forward` call whose cache lookup hits returns with the
state — store, both alias tables and the durable cache file — exactly
unchanged, and the fetch adapter is not invoked (zero adapter calls). -/
theorem c10_hit_no_mutation (f : String → Option ChemRecord) (st : ToolState)
    (q fmt : String) (r : ChemRecord) (h : lookupCache st q = some r) :
    forward f st q fmt =
      (render r (if fmt = "" then "json" else fmt) q, st, 0) := by
  have hq : pyStrip q ≠ "" := by
    intro hc
    unfold lookupCache at h
    rw [if_pos hc] at h
    cases h
  exact forward_hit hq h

/-- Witness for C10: on a concrete one-record state, resolving "water" as
JSON returns the cached record with the state unchanged and 0 adapter calls. -/
theorem c10_hit_no_mutation_witness :
    lookupCache (mkState storeW) "water" = some recWater ∧
    forward fNone (mkState storeW) "water" "json" =
      (.ret (dumpRecord recWater), mkState storeW, 0) :=
  ⟨by decide,
    c10_hit_no_mutation fNone (mkState storeW) "water" "json" recWater
      (by decide)⟩

/-- C9 (confirmed): every `forward` call whose cache lookup misses reaches the
adapter exactly once and mutates the store regardless of fetch success or
failure: the record (the fetched one, or the all-null negative record) is
inserted under the raw query string; the resulting state's alias tables equal
a full rebuild from the updated store and its durable file equals the
serialization of the updated store — i.e. the upsert happens first, then the
rebuild of both tables from the new store, then the whole-file rewrite. -/
theorem c9_miss_mutates (f : String → Option ChemRecord) (st : ToolState)
    (q fmt : String) (hwf : WF st) (hq : pyStrip q ≠ "")
    (hmiss : lookupCache st q = none) :
    ∃ rec : ChemRecord,
      (f q = none → rec = negativeRecord) ∧
      (∀ r, f q = some r → rec = r) ∧
      (forward f st q fmt).2.1.cache = st.cache ++ [(q, rec)] ∧
      (forward f st q fmt).2.1.aliasCI =
        (rebuildAliases (st.cache ++ [(q, rec)])).1 ∧
      (forward f st q fmt).2.1.aliasCS =
        (rebuildAliases (st.cache ++ [(q, rec)])).2 ∧
      (forward f st q fmt).2.1.file = dumpStore (st.cache ++ [(q, rec)]) ∧
      (forward f st q fmt).2.1.cache ≠ st.cache ∧
      (forward f st q fmt).2.2 = 1 := by
  have hfresh := fresh_of_lookup_none hwf hmiss
  have hlen : ∀ rec : ChemRecord, st.cache ++ [(q, rec)] ≠ st.cache := by
    intro rec hc
    have hl := congrArg List.length hc
    simp at hl
  rcases hfq : f q with _ | r
  · refine ⟨negativeRecord, fun _ => rfl, ?_, ?_, ?_, ?_, ?_, ?_, ?_⟩
    · intro r hr
      cases hr
    · rw [forward_miss_none hq hmiss hfq, addToCache_of_fresh hfresh]
      rfl
    · rw [forward_miss_none hq hmiss hfq, addToCache_of_fresh hfresh]
      rfl
    · rw [forward_miss_none hq hmiss hfq, addToCache_of_fresh hfresh]
      rfl
    · rw [forward_miss_none hq hmiss hfq, addToCache_of_fresh hfresh]
      rfl
    · rw [forward_miss_none hq hmiss hfq, addToCache_of_fresh hfresh]
      exact hlen negativeRecord
    · rw [forward_miss_none hq hmiss hfq]
  · refine ⟨r, ?_, ?_, ?_, ?_, ?_, ?_, ?_, ?_⟩
    · intro hn
      cases hn
    · intro r' hr'
      exact Option.some.inj hr'
    · rw [forward_miss_some hq hmiss hfq, addToCache_of_fresh hfresh]
      rfl
    · rw [forward_miss_some hq hmiss hfq, addToCache_of_fresh hfresh]
      rfl
    · rw [forward_miss_some hq hmiss hfq, addToCache_of_fresh hfresh]
      rfl
    · rw [forward_miss_some hq hmiss hfq, addToCache_of_fresh hfresh]
      rfl
    · rw [forward_miss_some hq hmiss hfq, addToCache_of_fresh hfresh]
      exact hlen r
    · rw [forward_miss_some hq hmiss hfq]

/-- Witness for C9: on the empty state, resolving "x" with an adapter that
finds nothing mutates the store, rebuilds the tables, rewrites the file and
calls the adapter once. -/
theorem c9_miss_mutates_witness :
    WF (mkState []) ∧ pyStrip "x" ≠ "" ∧
    lookupCache (mkState []) "x" = none ∧
    (∃ rec : ChemRecord,
      (fNone "x" = none → rec = negativeRecord) ∧
      (∀ r, fNone "x" = some r → rec = r) ∧
      (forward fNone (mkState []) "x" "json").2.1.cache = [] ++ [("x", rec)] ∧
      (forward fNone (mkState []) "x" "json").2.1.aliasCI =
        (rebuildAliases ([] ++ [("x", rec)])).1 ∧
      (forward fNone (mkState []) "x" "json").2.1.aliasCS =
        (rebuildAliases ([] ++ [("x", rec)])).2 ∧
      (forward fNone (mkState []) "x" "json").2.1.file =
        dumpStore ([] ++ [("x", rec)]) ∧
      (forward fNone (mkState []) "x" "json").2.1.cache ≠ [] ∧
      (forward fNone (mkState []) "x" "json").2.2 = 1) :=
  ⟨WF_mkState (by decide), by decide, by decide,
    c9_miss_mutates fNone (mkState []) "x" "json" (WF_mkState (by decide))
      (by decide) (by decide)⟩

/-- C4 (confirmed): on any well-formed state, `_lookup_cache` coincides with
the spec's three-step procedure `lookupSpec`: (a) exact, case-preserving
case-sensitive match of the trimmed query — never lowercased; (b)
case-insensitive match of the trimmed-and-lowercased query; (c) direct store
access under the trimmed query as written key; result is the matched record
or absence. -/
theorem c4_lookup_order (st : ToolState) (hwf : WF st) (query : String) :
    lookupCache st query = lookupSpec st query := by
  by_cases hq : pyStrip query = ""
  · unfold lookupCache lookupSpec
    rw [if_pos hq, hq, hwf.tblCS, hwf.tblCI, cs_apply_empty]
    rw [show pyLower "" = "" from rfl]
    rw [ci_apply_empty hwf.stripKeys, get?_empty_none hwf.stripKeys]
  · rw [lookupCache_eq st query hq]
    unfold lookupSpec
    rcases hcs : st.aliasCS (pyStrip query) with _ | w
    · rw [show normName (pyStrip query) = pyLower (pyStrip query) from
        (normName_pyStrip query).trans rfl]
      rw [Option.filter_none]
      rcases hci : st.aliasCI (pyLower (pyStrip query)) with _ | w
      · rw [Option.filter_none]
      · have hwne : w ≠ "" := by
          rw [hwf.tblCI] at hci
          exact ci_value_ne_empty hwf.stripKeys hci
        rw [Option.filter_some, if_pos (decide_eq_true hwne)]
    · have hwne : w ≠ "" := by
        rw [hwf.tblCS] at hcs
        exact cs_value_ne_empty hwf.stripKeys hcs
      rw [Option.filter_some, if_pos (decide_eq_true hwne)]

/-- Witness for C4 on a concrete state and queries exercising all branches. -/
theorem c4_lookup_order_witness :
    WF (mkState storeShadow) ∧
    lookupCache (mkState storeShadow) "ABC-123" =
      lookupSpec (mkState storeShadow) "ABC-123" ∧
    lookupCache (mkState storeShadow) " WATER " =
      lookupSpec (mkState storeShadow) " WATER " :=
  ⟨WF_mkState (by decide),
    c4_lookup_order (mkState storeShadow) (WF_mkState (by decide)) "ABC-123",
    c4_lookup_order (mkState storeShadow) (WF_mkState (by decide)) " WATER "⟩

/-- Counterexample to C7 as stated: `storeShadow` is reachable from the
one-record store by a single `forward` call, yet after its rebuild the
written key "water", though present in the store, does not occur as its own
case-insensitive alias — the alias "water" maps to the later record's
written key "dihydrogen monoxide", whose common name "Water" shadows it. -/
theorem c7_alias_invariant_counterexample :
    (forward (fun q => if q = "dihydrogen monoxide" then some recDhmo else none)
        (mkState storeW) "dihydrogen monoxide" "json").2.1.cache =
      storeShadow ∧
    ("water", recWater) ∈ storeShadow ∧
    (rebuildAliases storeShadow).1 (normName "water") =
      some "dihydrogen monoxide" ∧
    (rebuildAliases storeShadow).1 (normName "water") ≠ some "water" := by
  decide

/-- C7 amended: after a rebuild over a store whose keys are non-empty when
trimmed, (1) every case-sensitive alias maps to a written key present in the
store and is the exact non-empty trimmed value of a structural field of that
key's record; (2) every case-insensitive alias maps to a present written key
and is the non-empty normalization of that record's written key or of a
non-empty name field — hence no alias is generated from a null, empty or
whitespace-only field; (3) every written key's normalized form is present in
the case-insensitive table, mapping to the last record that claims it (not
necessarily to that written key itself). -/
theorem c7_alias_invariant_amended (s : Store) (hgk : goodKeys s) :
    (∀ a w, (rebuildAliases s).2 a = some w →
      ∃ r, (w, r) ∈ s ∧ a ∈ csKeysOf r ∧ a ≠ "") ∧
    (∀ a w, (rebuildAliases s).1 a = some w →
      ∃ r, (w, r) ∈ s ∧ a ∈ (ciKeysOf w r).map normName ∧ a ≠ "") ∧
    (∀ w r, (w, r) ∈ s →
      ∃ w', (rebuildAliases s).1 (normName w) = some w') := by
  refine ⟨?_, ?_, ?_⟩
  · intro a w h
    obtain ⟨r, hm, hk⟩ := cs_apply_some h
    exact ⟨r, hm, hk, (csKeysOf_cases hk).2⟩
  · intro a w h
    obtain ⟨r, hm, hk⟩ := ci_apply_some h
    obtain ⟨x, hx, hxa⟩ := List.mem_map.mp hk
    exact ⟨r, hm, hk, hxa ▸ ciKey_norm_ne_empty hgk hm hx⟩
  · intro w r hm
    exact ci_apply_isSome_of_claim hm
      (List.mem_map_of_mem _
        (mem_ciKeysOf_self r (ne_empty_of_pyStrip (hgk _ hm))))

/-- Witness for the amended C7 on the concrete shadowed store. -/
theorem c7_alias_invariant_amended_witness :
    goodKeys storeShadow ∧
    (∀ w r, (w, r) ∈ storeShadow →
      ∃ w', (rebuildAliases storeShadow).1 (normName w) = some w') :=
  ⟨by decide, (c7_alias_invariant_amended storeShadow (by decide)).2.2⟩

/-- C6 (confirmed): case handling of the two alias spaces. (1) A hit in the
case-sensitive table at the trimmed query means the trimmed query is,
character-for-character, a structural field value of the owning cached
record — the query is never lowercased for this step. (2) In particular, if
a record stores "ABC-123" as a structural alias and nothing in the cache
separately carries "abc-123", then looking up "abc-123" finds nothing.
(3) Name aliases are matched case-insensitively after trimming: queries with
the same trimmed, lowercased form address the same case-insensitive entry,
and any name alias of a cached record makes every query with its
normalization resolve to a cached record. -/
theorem c6_case_sensitivity (st : ToolState) (hwf : WF st) :
    (∀ q w, st.aliasCS (pyStrip q) = some w →
      ∃ r, (w, r) ∈ st.cache ∧ pyStrip q ∈ csKeysOf r) ∧
    (∀ W R, (W, R) ∈ st.cache → "ABC-123" ∈ csKeysOf R →
      (∀ e ∈ st.cache, "abc-123" ∉ csKeysOf e.2) →
      (∀ e ∈ st.cache, "abc-123" ∉ (ciKeysOf e.1 e.2).map normName) →
      (∀ e ∈ st.cache, e.1 ≠ "abc-123") →
      lookupCache st "abc-123" = none) ∧
    (∀ q₁ q₂, pyLower (pyStrip q₁) = pyLower (pyStrip q₂) →
      st.aliasCI (normName q₁) = st.aliasCI (normName q₂)) ∧
    (∀ W R, (W, R) ∈ st.cache → ∀ x ∈ ciKeysOf W R, ∀ q,
      normName q = normName x → ∃ r', lookupCache st q = some r') := by
  refine ⟨?_, ?_, ?_, ?_⟩
  · intro q w h
    rw [hwf.tblCS] at h
    exact cs_apply_some h
  · intro W R _ _ hcs hci hkey
    have h2 : (rebuildAliases st.cache).2 "abc-123" = none := by
      rcases hc : (rebuildAliases st.cache).2 "abc-123" with _ | w
      · rfl
      · obtain ⟨r, hm', hk⟩ := cs_apply_some hc
        exact absurd hk (hcs (w, r) hm')
    have h3 : (rebuildAliases st.cache).1 "abc-123" = none := by
      rcases hc : (rebuildAliases st.cache).1 "abc-123" with _ | w
      · rfl
      · obtain ⟨r, hm', hk⟩ := ci_apply_some hc
        exact absurd hk (hci (w, r) hm')
    rw [lookupCache_eq st "abc-123" (by decide)]
    rw [show pyStrip "abc-123" = "abc-123" from rfl]
    rw [hwf.tblCS, h2, Option.filter_none]
    rw [show normName "abc-123" = "abc-123" from by decide]
    rw [hwf.tblCI, h3, Option.filter_none]
    exact Store.get?_eq_none_of hkey
  · intro q₁ q₂ h
    exact congrArg st.aliasCI h
  · intro W R hm x hx q hq
    exact lookup_isSome_of_ciClaim hwf hm hx hq

/-- Witness for C6: on the one-record state caching "ABC-123" as InChIKey,
the lowercased query "abc-123" misses. -/
theorem c6_case_sensitivity_witness :
    WF (mkState storeW) ∧ lookupCache (mkState storeW) "abc-123" = none :=
  ⟨WF_mkState (by decide),
    (c6_case_sensitivity (mkState storeW) (WF_mkState (by decide))).2.1
      "water" recWater (by decide) (by decide) (by decide) (by decide)
      (by decide)⟩

/-- Counterexample to C5 as stated: in the reachable state over
`storeShadow`, `recWater` sits under written key "water" with inchikey
"ABC-123" and no other record claims that alias, yet `resolve("ABC-123",
"json")` returns `recWater` while `resolve("water", "json")` returns the
later record `recDhmo` — whose common name "Water" shadows the written key
"water" in the case-insensitive table — so the two serialized records
differ. Neither call invokes the adapter. -/
theorem c5_alias_symmetry_counterexample :
    ("water", recWater) ∈ storeShadow ∧
    recWater.inchikey = some "ABC-123" ∧
    (∀ e ∈ storeShadow, e.1 ≠ "water" → "ABC-123" ∉ csKeysOf e.2) ∧
    (forward fNone (mkState storeShadow) "ABC-123" "json").1 =
      .ret (dumpRecord recWater) ∧
    (forward fNone (mkState storeShadow) "water" "json").1 =
      .ret (dumpRecord recDhmo) ∧
    (forward fNone (mkState storeShadow) "ABC-123" "json").2.2 = 0 ∧
    (forward fNone (mkState storeShadow) "water" "json").2.2 = 0 ∧
    dumpRecord recWater ≠ dumpRecord recDhmo := by
  decide

/-- C5 amended: the symmetry does hold when, additionally, no other record
claims `W`'s trimmed form as a structural alias nor `W`'s normalization as a
name alias (which the counterexample's shadowing violates): then
`resolve("ABC-123", "json")` and `resolve(W, "json")` both return the same
serialized record `R`, unchanged state, and zero adapter invocations. -/
theorem c5_alias_symmetry_amended (f : String → Option ChemRecord)
    (st : ToolState) (hwf : WF st) (W : String) (R : ChemRecord)
    (hmem : (W, R) ∈ st.cache) (hik : R.inchikey = some "ABC-123")
    (hexcl_abc : ∀ e ∈ st.cache, "ABC-123" ∈ csKeysOf e.2 → e.1 = W)
    (hexcl_cs : ∀ e ∈ st.cache, pyStrip W ∈ csKeysOf e.2 → e.1 = W)
    (hexcl_ci : ∀ e ∈ st.cache,
      normName W ∈ (ciKeysOf e.1 e.2).map normName → e.1 = W) :
    forward f st "ABC-123" "json" = (.ret (dumpRecord R), st, 0) ∧
    forward f st W "json" = (.ret (dumpRecord R), st, 0) := by
  have hikmem : "ABC-123" ∈ csKeysOf R := by
    unfold csKeysOf
    rw [hik]
    exact List.mem_filter.mpr ⟨List.mem_cons_self _ _, by decide⟩
  constructor
  · have hl : lookupCache st "ABC-123" = some R :=
      lookup_exclusive_cs hwf hmem hikmem hexcl_abc
    exact forward_hit (by decide) hl
  · have hl : lookupCache st W = some R :=
      lookup_exclusive_written hwf hmem hexcl_cs hexcl_ci
    exact forward_hit (hwf.stripKeys _ hmem) hl

/-- Witness for the amended C5 on the one-record store, where the
exclusivity side conditions hold. -/
theorem c5_alias_symmetry_amended_witness :
    WF (mkState storeW) ∧
    forward fNone (mkState storeW) "ABC-123" "json" =
      (.ret (dumpRecord recWater), mkState storeW, 0) ∧
    forward fNone (mkState storeW) "water" "json" =
      (.ret (dumpRecord recWater), mkState storeW, 0) :=
  ⟨WF_mkState (by decide),
    (c5_alias_symmetry_amended fNone (mkState storeW) (WF_mkState (by decide))
      "water" recWater (by decide) (by decide) (by decide) (by decide)
      (by decide)).1,
    (c5_alias_symmetry_amended fNone (mkState storeW) (WF_mkState (by decide))
      "water" recWater (by decide) (by decide) (by decide) (by decide)
      (by decide)).2⟩

theorem triple_eq {α β γ : Type} {a c : α} {b d : β} {n m : γ}
    (h : (a, b, n) = (c, d, m)) : a = c ∧ b = d ∧ n = m := by
  injection h with h1 h23
  injection h23 with h2 h3
  exact ⟨h1, h2, h3⟩

/-- Counterexample to C1 as stated: with an empty cache and an adapter that
finds nothing, resolving "x" twice with output_format "json" yields two
different strings — the first call returns the no-result message, the second
the JSON serialization of the cached all-null negative record (the second
call still makes no adapter invocation). -/
theorem c1_idempotence_counterexample :
    (forward fNone (mkState []) "x" "json").1 = .ret (noResultMsg "x") ∧
    (forward fNone ((forward fNone (mkState []) "x" "json").2.1) "x"
        "json").1 = .ret (dumpRecord negativeRecord) ∧
    (forward fNone (mkState []) "x" "json").1 ≠
      (forward fNone ((forward fNone (mkState []) "x" "json").2.1) "x"
        "json").1 ∧
    (forward fNone ((forward fNone (mkState []) "x" "json").2.1) "x"
        "json").2.2 = 0 := by
  decide

/-- C1 amended: resolving the same non-empty query twice with a valid
output_format never invokes the adapter on the second call, and the two
returned strings are equal whenever the first call hit the cache or the
adapter returned a record; in the remaining case (first call missed and the
adapter found nothing) the first call returns the no-result message while
the second renders the cached all-null negative record instead. -/
theorem c1_idempotence_amended (f : String → Option ChemRecord)
    (st : ToolState) (q fmt : String) (hwf : WF st) (hq : pyStrip q ≠ "")
    (hfmt : fmt = "json" ∨ fmt ∈ validFields)
    (o₁ o₂ : FwdOut) (st₁ st₂ : ToolState) (n₁ n₂ : Nat)
    (h₁ : forward f st q fmt = (o₁, st₁, n₁))
    (h₂ : forward f st₁ q fmt = (o₂, st₂, n₂)) :
    n₂ = 0 ∧
    (((∃ r, lookupCache st q = some r) ∨ (∃ r, f q = some r)) → o₂ = o₁) ∧
    (lookupCache st q = none → f q = none →
      o₁ = .ret (noResultMsg q) ∧ o₂ = render negativeRecord fmt q) := by
  have hfne : fmt ≠ "" := by
    rcases hfmt with h | h
    · rw [h]; decide
    · intro hc
      rw [hc] at h
      exact absurd h (by decide)
  have hfe : (if fmt = "" then "json" else fmt) = fmt := if_neg hfne
  rcases hlk : lookupCache st q with _ | r
  · rcases hfq : f q with _ | r
    · rw [forward_miss_none hq hlk hfq] at h₁
      obtain ⟨ho, hst, hn⟩ := triple_eq h₁
      subst ho; subst hst; subst hn
      rw [forward_hit hq (lookup_addToCache_self hwf hq hlk negativeRecord)]
        at h₂
      obtain ⟨ho2, hst2, hn2⟩ := triple_eq h₂
      subst ho2; subst hst2; subst hn2
      refine ⟨rfl, ?_, ?_⟩
      · rintro (⟨r, hr⟩ | ⟨r, hr⟩) <;> cases hr
      · intro _ _
        exact ⟨rfl, by rw [hfe]⟩
    · rw [forward_miss_some hq hlk hfq] at h₁
      obtain ⟨ho, hst, hn⟩ := triple_eq h₁
      subst ho; subst hst; subst hn
      rw [forward_hit hq (lookup_addToCache_self hwf hq hlk r)] at h₂
      obtain ⟨ho2, hst2, hn2⟩ := triple_eq h₂
      subst ho2; subst hst2; subst hn2
      refine ⟨rfl, fun _ => rfl, ?_⟩
      intro _ hfq2
      cases hfq2
  · rw [forward_hit hq hlk] at h₁
    obtain ⟨ho, hst, hn⟩ := triple_eq h₁
    subst ho; subst hst; subst hn
    rw [forward_hit hq hlk] at h₂
    obtain ⟨ho2, hst2, hn2⟩ := triple_eq h₂
    subst ho2; subst hst2; subst hn2
    refine ⟨rfl, fun _ => rfl, ?_⟩
    intro hnone
    cases hnone

/-- Witness for the amended C1 on the positive path: resolving "water" twice
with format "smiles" returns "O" both times and the second call makes no
adapter invocation. -/
theorem c1_idempotence_amended_witness :
    WF (mkState []) ∧ pyStrip "water" ≠ "" ∧
    ("smiles" = "json" ∨ "smiles" ∈ validFields) ∧
    (0 = 0 ∧
      (((∃ r, lookupCache (mkState []) "water" = some r) ∨
          (∃ r, fWater "water" = some r)) →
        FwdOut.ret "O" = FwdOut.ret "O") ∧
      (lookupCache (mkState []) "water" = none → fWater "water" = none →
        FwdOut.ret "O" = .ret (noResultMsg "water") ∧
        FwdOut.ret "O" = render negativeRecord "smiles" "water")) :=
  ⟨WF_mkState (by decide), by decide, by decide,
    c1_idempotence_amended fWater (mkState []) "water" "smiles"
      (WF_mkState (by decide)) (by decide) (by decide)
      (.ret "O") (.ret "O") (mkState storeW) (mkState storeW) 1 0 rfl rfl⟩

/-- Counterexample to C2 as stated: repeated calls served from the cached
negative record do not return the "no result" message for output_format
"json"; the second call returns the serialized all-null record instead. -/
theorem c2_negative_caching_counterexample :
    (forward fNone (mkState []) "x2" "json").1 = .ret (noResultMsg "x2") ∧
    (forward fNone ((forward fNone (mkState []) "x2" "json").2.1) "x2"
        "json").1 = .ret (dumpRecord negativeRecord) ∧
    .ret (dumpRecord negativeRecord) ≠ (.ret (noResultMsg "x2") : FwdOut) := by
  decide

/-- C2 amended: when the lookup misses and the adapter finds nothing,
`forward` upserts the all-null negative record under the raw query string,
returns the no-result message whatever the output_format, and invokes the
adapter once; repeated calls are served from the cached negative record with
no further adapter invocation, returning the serialized all-null record for
"json" and the per-field no-value message for each field format — not the
no-result message. -/
theorem c2_negative_caching_amended (f : String → Option ChemRecord)
    (st : ToolState) (q : String) (hwf : WF st) (hq : pyStrip q ≠ "")
    (hmiss : lookupCache st q = none) (hf : f q = none) :
    (∀ fmt, forward f st q fmt =
      (.ret (noResultMsg q), addToCache st q negativeRecord, 1)) ∧
    (addToCache st q negativeRecord).cache =
      st.cache.setKey q negativeRecord ∧
    Store.get? (addToCache st q negativeRecord).cache q =
      some negativeRecord ∧
    (∀ fmt, (forward f (addToCache st q negativeRecord) q fmt).2 =
      (addToCache st q negativeRecord, 0)) ∧
    (forward f (addToCache st q negativeRecord) q "json").1 =
      .ret (dumpRecord negativeRecord) ∧
    (∀ fmt, fmt ∈ validFields →
      (forward f (addToCache st q negativeRecord) q fmt).1 =
        .ret ("No value for \x27" ++ fmt ++ "\x27 found for: " ++ q)) := by
  have hfresh := fresh_of_lookup_none hwf hmiss
  have hlk2 := lookup_addToCache_self hwf hq hmiss negativeRecord
  refine ⟨?_, rfl, ?_, ?_, ?_, ?_⟩
  · intro fmt
    exact forward_miss_none hq hmiss hf
  · rw [addToCache_of_fresh hfresh]
    show Store.get? (st.cache ++ [(q, negativeRecord)]) q = some negativeRecord
    rw [Store.get?_append_none (Store.get?_eq_none_of hfresh), Store.get?,
      if_pos rfl]
  · intro fmt
    rw [forward_hit hq hlk2]
  · rw [forward_hit hq hlk2]
    rfl
  · intro fmt hmemf
    rw [forward_hit hq hlk2]
    fin_cases hmemf <;> rfl

/-- Witness for the amended C2 on the empty state with query "neg". -/
theorem c2_negative_caching_amended_witness :
    WF (mkState []) ∧ pyStrip "neg" ≠ "" ∧
    lookupCache (mkState []) "neg" = none ∧ fNone "neg" = none ∧
    (forward fNone (addToCache (mkState []) "neg" negativeRecord) "neg"
        "json").1 = .ret (dumpRecord negativeRecord) :=
  ⟨WF_mkState (by decide), by decide, by decide, rfl,
    (c2_negative_caching_amended fNone (mkState []) "neg"
      (WF_mkState (by decide)) (by decide) (by decide) rfl).2.2.2.2.1⟩

/-- Counterexample to C3 as stated: calling `forward` with the invalid
output_format "bogus" on a cache miss does not fail with InvalidInput at
all — it invokes the adapter, upserts the negative record, rewrites the
durable file, and returns the no-result message. -/
theorem c3_invalid_format_counterexample :
    (forward fNone (mkState []) "q" "bogus").1 = .ret (noResultMsg "q") ∧
    (forward fNone (mkState []) "q" "bogus").2.1.cache =
      [("q", negativeRecord)] ∧
    (forward fNone (mkState []) "q" "bogus").2.1.file =
      dumpStore [("q", negativeRecord)] ∧
    (forward fNone (mkState []) "q" "bogus").2.2 = 1 := by
  decide

/-- C3 amended: the output_format validation runs only after the cache/fetch
stage. For an invalid, non-empty output_format (an empty one silently
defaults to "json"): on a cache hit the call raises the InvalidInput
ValueError with no mutation and no adapter call; on a miss the adapter is
invoked and the store, alias tables and durable file are updated before the
check — the call then raises InvalidInput if the adapter returned a record,
and returns the no-result message without any error if it did not. -/
theorem c3_invalid_format_amended (f : String → Option ChemRecord)
    (st : ToolState) (q fmt : String) (hq : pyStrip q ≠ "")
    (h1 : fmt ≠ "json") (h2 : fmt ∉ validFields) (h3 : fmt ≠ "") :
    (∀ r, lookupCache st q = some r →
      forward f st q fmt = (.err invalidFormatMsg, st, 0)) ∧
    (lookupCache st q = none → ∀ r, f q = some r →
      forward f st q fmt = (.err invalidFormatMsg, addToCache st q r, 1)) ∧
    (lookupCache st q = none → f q = none →
      forward f st q fmt =
        (.ret (noResultMsg q), addToCache st q negativeRecord, 1)) := by
  have hrender : ∀ r : ChemRecord,
      render r (if fmt = "" then "json" else fmt) q = .err invalidFormatMsg := by
    intro r
    rw [if_neg h3]
    unfold render
    rw [if_neg h1, if_pos h2]
  refine ⟨?_, ?_, ?_⟩
  · intro r h
    rw [forward_hit hq h, hrender r]
  · intro hm r hf
    rw [forward_miss_some hq hm hf, hrender r]
  · intro hm hf
    exact forward_miss_none hq hm hf

/-- Witness for the amended C3: on a cache hit, the invalid format "bogus"
raises the ValueError with the state unchanged and no adapter call. -/
theorem c3_invalid_format_amended_witness :
    pyStrip "water" ≠ "" ∧ "bogus" ≠ "json" ∧ "bogus" ∉ validFields ∧
    "bogus" ≠ "" ∧
    forward fNone (mkState storeW) "water" "bogus" =
      (.err invalidFormatMsg, mkState storeW, 0) :=
  ⟨by decide, by decide, by decide, by decide,
    (c3_invalid_format_amended fNone (mkState storeW) "water" "bogus"
      (by decide) (by decide) (by decide) (by decide)).1 recWater (by decide)⟩

/-- C8 (code bug): `_fetch_from_pubchem` stores the integer CID in the `cid`
field: for the compound returned for "water" (cid 962) the built record's
cid is the number 962 — neither a string nor null — contradicting the
function's own `Dict[str, Optional[str]]` annotation, and this record
reaches the store unchanged via `forward`'s upsert. -/
theorem c8_cid_not_string :
    (recordOfCompound waterCompound).cid = .int 962 ∧
    (∀ s, (recordOfCompound waterCompound).cid ≠ .str s) ∧
    (recordOfCompound waterCompound).cid ≠ .null ∧
    fetchFromPubchem
      (fun _ ns => if ns = "inchikey" then some [waterCompound] else some [])
      "water" = some (recordOfCompound waterCompound) ∧
    (forward
      (fetchFromPubchem
        (fun _ ns => if ns = "inchikey" then some [waterCompound]
          else some []))
      (mkState []) "water" "json").2.1.cache =
      [("water", recordOfCompound waterCompound)] := by
  refine ⟨rfl, ?_, by decide, by decide, by decide⟩
  intro s h
  cases h

end PubchemResolve
